import Mathlib

/-!
Verification of the sternum enumeration <-> string mapping engine.

Strings are modelled as lists of characters (`Str`). Case folding uses the
core `Char.toUpper`/`Char.toLower`, which act only on basic latin letters,
matching the ASCII case rules used by the engine on identifier characters.
-/

namespace Sternum

/-- Rust strings, modelled as lists of characters. -/
abbrev Str := List Char

/-- ASCII uppercasing of a whole string (Rust `to_uppercase` on ASCII identifiers). -/
def asciiUpper (s : Str) : Str := s.map Char.toUpper

/-- ASCII lowercasing of a whole string (Rust `to_lowercase` on ASCII identifiers). -/
def asciiLower (s : Str) : Str := s.map Char.toLower

/-- From `src/sternum_derive/src/features.rs` (`TransformKind`): an uppercase or
lowercase transform. -/
inductive TransformKind
  | uppercase
  | lowercase
deriving DecidableEq

/-- The validated configuration. `scoped` and `transform` are the fields of
`FeatureSet` in `src/sternum_derive/src/features.rs`; the `caseInsensitive`
field is modelled from the spec (the snapshot's `FeatureSet` lacks it even
though the feature parser in `features/parse.rs` recognises the
`case_insensitive` argument). Default is all-off. -/
structure FeatureSet where
  isScoped : Bool
  caseInsensitive : Bool
  transform : Option TransformKind
deriving DecidableEq

/-- The default configuration: no fragments present. -/
def defaultFeatures : FeatureSet := FeatureSet.mk false false none

/-- The configuration produced by `#[sternum(scoped)]` alone. -/
def scopedFeatures : FeatureSet := FeatureSet.mk true false none

/-- The configuration produced by `#[sternum(case_insensitive)]` alone. -/
def ciFeatures : FeatureSet := FeatureSet.mk false true none

/-- A configuration whose only active option is the given transform. -/
def transformFeatures (t : TransformKind) : FeatureSet := FeatureSet.mk false false (some t)

/-- The abstract schema the engine consumes: a type name and the ordered
variant identifiers. -/
structure EnumSchema where
  typeName : Str
  variants : List Str
deriving DecidableEq

/-- From `impl_display`/`impl_from_str` in `src/sternum_derive/src/lib.rs`:
the string for one variant after the scoping step
(`format!("{}::{}", type_name, ident)` when scoped, else the identifier). -/
def scopedRepr (typeName variantId : Str) (sc : Bool) : Str :=
  if sc then typeName ++ ':' :: ':' :: variantId else variantId

/-- Modelled from the spec: the transform step of the name resolver, applied to
the already-scoped string (the generated code applying transforms is not in the
snapshot; only its tests are). -/
def applyTransform : Option TransformKind → Str → Str
  | none, s => s
  | some TransformKind.uppercase, s => asciiUpper s
  | some TransformKind.lowercase, s => asciiLower s

/-- The name resolver: (type name, variant identifier, configuration) to the
canonical display string. Scoping from `src/sternum_derive/src/lib.rs`;
the transform step is modelled from the spec. -/
def resolve (typeName variantId : Str) (fs : FeatureSet) : Str :=
  applyTransform fs.transform (scopedRepr typeName variantId fs.isScoped)

/-- Modelled from the spec: the comparison key used by the reverse table and
the collision check: the resolved string, additionally lowercased when
`case_insensitive` is set. -/
def compKey (fs : FeatureSet) (typeName variantId : Str) : Str :=
  if fs.caseInsensitive then asciiLower (resolve typeName variantId fs)
  else resolve typeName variantId fs

/-- The display string of a variant: the generated `Display` implementation
writes the resolved string (`impl_display` in `src/sternum_derive/src/lib.rs`). -/
def display (schema : EnumSchema) (fs : FeatureSet) (v : Str) : Str :=
  resolve schema.typeName v fs

/-- From `src/sternum/src/lib.rs` (`UnknownVariantError<T>`): the reverse-lookup
error, carrying the string that could not be parsed. Equality is derived
field-wise, as in the source's `#[derive(Eq, PartialEq)]`. -/
structure UnknownVariantError where
  variant : Str
deriving DecidableEq

/-- From `impl Display for UnknownVariantError` in `src/sternum/src/lib.rs`:
`"Could not parse `{}' as type {}: unknown variant"`. -/
def UnknownVariantError.displayMessage (typeName : Str) (e : UnknownVariantError) : Str :=
  "Could not parse \x60".data ++ e.variant ++ "\x27 as type ".data ++ typeName
    ++ ": unknown variant".data

/-- The ordered first-match lookup performed by the generated `from_str` match
(`impl_from_str` in `src/sternum_derive/src/lib.rs`): the first variant whose
comparison key equals the (normalized) input. -/
def lookupVariant (fs : FeatureSet) (typeName key : Str) : List Str → Option Str
  | [] => none
  | v :: rest =>
      if compKey fs typeName v = key then some v else lookupVariant fs typeName key rest

/-- Modelled from the spec: the normalization applied to the input before the
reverse lookup (lowercase fold when `case_insensitive`, else identity). -/
def normInput (fs : FeatureSet) (s : Str) : Str :=
  if fs.caseInsensitive then asciiLower s else s

/-- The generated `from_str`: match the input against the variant keys in
declaration order, else return an `UnknownVariantError` carrying the input
(`impl_from_str` in `src/sternum_derive/src/lib.rs`; the `case_insensitive`
normalization of the input is modelled from the spec). -/
def fromStr (schema : EnumSchema) (fs : FeatureSet) (s : Str) :
    Except UnknownVariantError Str :=
  match lookupVariant fs schema.typeName (normInput fs s) schema.variants with
  | some v => Except.ok v
  | none => Except.error ⟨s⟩

/-! ### Diagnostics

One constructor per error-message shape produced by the source, carrying the
cited token where the source interpolates one. -/

inductive Diag
  | notAnEnum
  | noVariants
  | nonUnitVariant (ident : Str)
  | expectedParenArgs
  | unexpectedNameValue
  | endOfInput
  | expectedIdent
  | expectedEq
  | unexpectedToken
  | unknownArgument (name : Str)
  | badTransformValue (value : Str)
  | repeatedTransform
  | collision (current prior : Str)
deriving DecidableEq

/-! ### Configuration parsing

From `src/sternum_derive/src/features/parse.rs` and
`src/sternum_derive/src/features.rs`. -/

/-- One token of a `#[sternum(...)]` argument list. -/
inductive Tok
  | ident (name : Str)
  | eqTok
  | comma
  | litTok
deriving DecidableEq

/-- The shape of an attribute's arguments: parenthesized tokens
(`#[name(...)]`), a bare marker (`#[name]`), or `#[name = ...]`. -/
inductive AttrArgs
  | paren (toks : List Tok)
  | bare
  | nameValue
deriving DecidableEq

/-- An attribute attached to the enum declaration. -/
structure Attribute where
  path : Str
  args : AttrArgs
deriving DecidableEq

/-- From `RawFeature` in `src/sternum_derive/src/features/parse.rs`
(identifier and span payloads dropped: they feed only error rendering). -/
inductive RawFeature
  | caseInsensitive
  | scopedRaw
  | transform (value : Str)
deriving DecidableEq

/-- `impl Parse for RawFeature` in `src/sternum_derive/src/features/parse.rs`:
parse one comma-separated item. An identifier is read first; `scoped` and
`case_insensitive` stand alone, `transform` demands `= <identifier>`, and any
other name is an `Unknown argument` error citing that name. Returns the
remaining tokens on success. -/
def parseRawFeature : List Tok → Except Diag (RawFeature × List Tok)
  | [] => Except.error Diag.endOfInput
  | Tok.ident name :: rest =>
      if name = "case_insensitive".data then Except.ok (RawFeature.caseInsensitive, rest)
      else if name = "scoped".data then Except.ok (RawFeature.scopedRaw, rest)
      else if name = "transform".data then
        match rest with
        | Tok.eqTok :: Tok.ident value :: rest2 =>
            Except.ok (RawFeature.transform value, rest2)
        | Tok.eqTok :: [] => Except.error Diag.endOfInput
        | Tok.eqTok :: _ :: _ => Except.error Diag.expectedIdent
        | _ => Except.error Diag.expectedEq
      else Except.error (Diag.unknownArgument name)
  | _ :: _ => Except.error Diag.expectedIdent

/-- `Punctuated::parse_separated_nonempty`, as invoked by
`impl Parse for RawFeatures`: at least one item, comma-separated, the whole
input consumed; the first parse error aborts the fragment. Fuel-indexed; the
fuel used by `parseRawFeatures` always suffices because every accepted item
consumes at least one token. -/
def parseItems (fuel : Nat) (toks : List Tok) : Except Diag (List RawFeature) :=
  match fuel with
  | 0 => Except.error Diag.endOfInput
  | Nat.succ fuel2 =>
      match parseRawFeature toks with
      | Except.error d => Except.error d
      | Except.ok (f, rest) =>
          match rest with
          | [] => Except.ok [f]
          | Tok.comma :: rest2 =>
              match parseItems fuel2 rest2 with
              | Except.error d => Except.error d
              | Except.ok fs => Except.ok (f :: fs)
          | _ :: _ => Except.error Diag.unexpectedToken

/-- Parse one fragment (the token list inside `#[sternum(...)]`). -/
def parseRawFeatures (toks : List Tok) : Except Diag (List RawFeature) :=
  parseItems (toks.length + 1) toks

/-- `attr.parse_args::<RawFeatures>()`: a bare `#[sternum]` or a
`#[sternum = ...]` attribute has no parenthesized arguments and is itself an
error (as in `get_meta_list` in `src/sternum_derive/src/lib.rs`). -/
def parseArgs : AttrArgs → Except Diag (List RawFeature)
  | AttrArgs.bare => Except.error Diag.expectedParenArgs
  | AttrArgs.nameValue => Except.error Diag.unexpectedNameValue
  | AttrArgs.paren toks => parseRawFeatures toks

/-- From `FeatureKind` in `src/sternum_derive/src/features.rs`. The
`caseInsensitive` case is modelled from the spec (the snapshot's `FeatureKind`
lacks it). -/
inductive FeatureKind
  | scopedKind
  | caseInsensitive
  | transform (t : TransformKind)
deriving DecidableEq

/-- `TryFrom<RawFeature> for Feature` in `src/sternum_derive/src/features.rs`:
the `transform` value must textually be `uppercase` or `lowercase`, anything
else is an error citing the value. The `caseInsensitive` arm is modelled from
the spec. -/
def tryFrom : RawFeature → Except Diag FeatureKind
  | RawFeature.scopedRaw => Except.ok FeatureKind.scopedKind
  | RawFeature.caseInsensitive => Except.ok FeatureKind.caseInsensitive
  | RawFeature.transform value =>
      if value = "uppercase".data then
        Except.ok (FeatureKind.transform TransformKind.uppercase)
      else if value = "lowercase".data then
        Except.ok (FeatureKind.transform TransformKind.lowercase)
      else Except.error (Diag.badTransformValue value)

/-- `FeatureSet::apply` in `src/sternum_derive/src/features.rs`: `scoped` (and,
modelled from the spec, `case_insensitive`) set their flag unconditionally; a
transform conflicts when a different transform was already recorded. -/
def FeatureSet.apply (fs : FeatureSet) : FeatureKind → Except Diag FeatureSet
  | FeatureKind.scopedKind => Except.ok (FeatureSet.mk true fs.caseInsensitive fs.transform)
  | FeatureKind.caseInsensitive => Except.ok (FeatureSet.mk fs.isScoped true fs.transform)
  | FeatureKind.transform t =>
      match fs.transform with
      | some prev =>
          if prev = t then Except.ok fs else Except.error Diag.repeatedTransform
      | none => Except.ok (FeatureSet.mk fs.isScoped fs.caseInsensitive (some t))

/-- The items contributed by one attribute: its parsed features converted via
`tryFrom`, or the single parse error of the fragment (the `flat_map` step of
`parse_features` in `src/sternum_derive/src/features.rs`). -/
def attrItems (a : Attribute) : List (Except Diag FeatureKind) :=
  match parseArgs a.args with
  | Except.ok rawList => rawList.map tryFrom
  | Except.error d => [Except.error d]

/-- All items across the declaration's attributes, keeping only attributes
whose path is `sternum` (the `filter` step of `parse_features`). -/
def collectItems (attrs : List Attribute) : List (Except Diag FeatureKind) :=
  ((attrs.filter (fun a => decide (a.path = "sternum".data))).map attrItems).flatten

/-- `ParseState` in `src/sternum_derive/src/features.rs`: accumulated errors
plus the feature set built so far. -/
structure ParseState where
  errors : List Diag
  features : FeatureSet
deriving DecidableEq

/-- One step of the `fold` in `parse_features`: apply a feature to the set,
collecting conflicts; collect upstream errors. -/
def applyItem (st : ParseState) : Except Diag FeatureKind → ParseState
  | Except.ok k =>
      match st.features.apply k with
      | Except.ok fs2 => ParseState.mk st.errors fs2
      | Except.error d => ParseState.mk (st.errors ++ [d]) st.features
  | Except.error d => ParseState.mk (st.errors ++ [d]) st.features

/-- `parse_features` in `src/sternum_derive/src/features.rs`: fold all items
into a `ParseState` and finalize: the feature set when no errors accumulated,
else the error list. -/
def parseFeatures (attrs : List Attribute) : Except (List Diag) FeatureSet :=
  let st := (collectItems attrs).foldl applyItem (ParseState.mk [] defaultFeatures)
  if st.errors = [] then Except.ok st.features else Except.error st.errors

/-! ### The derive entry point (`derive_impl` in `src/sternum_derive/src/lib.rs`) -/

/-- One source-level variant: its identifier and whether it is a unit variant
(carries no data). -/
structure RawVariant where
  ident : Str
  isUnit : Bool
deriving DecidableEq

/-- The declaration's data: an enum with its variants, or anything else
(struct, union). -/
inductive InputData
  | enumOf (variants : List RawVariant)
  | notEnum
deriving DecidableEq

/-- The derive input: type identifier, attributes, and the declaration data. -/
structure DeriveInput where
  ident : Str
  attrs : List Attribute
  data : InputData
deriving DecidableEq

/-- `derive_impl` in `src/sternum_derive/src/lib.rs`: reject non-enums, empty
enums, and data-carrying variants (one diagnostic each), in that order, before
parsing any configuration; then parse features and produce the schema the
generated impls are built from. -/
def deriveImpl (ast : DeriveInput) : Except (List Diag) (EnumSchema × FeatureSet) :=
  match ast.data with
  | InputData.notEnum => Except.error [Diag.notAnEnum]
  | InputData.enumOf variants =>
      if variants.length = 0 then Except.error [Diag.noVariants]
      else
        let variantErrors := variants.filterMap
          (fun v => if v.isUnit then none else some (Diag.nonUnitVariant v.ident))
        if variantErrors = [] then
          match parseFeatures ast.attrs with
          | Except.ok fs =>
              Except.ok (EnumSchema.mk ast.ident (variants.map RawVariant.ident), fs)
          | Except.error ds => Except.error ds
        else Except.error variantErrors

/-! ### Character-case lemmas -/

theorem toNat_ofNat_valid (m : Nat) (h : m.isValidChar) : (Char.ofNat m).toNat = m := by
  simp [Char.ofNat, dif_pos h, Char.ofNatAux, Char.toNat]
  rfl

theorem isLower_iff_toNat (c : Char) : c.isLower = true ↔ 97 ≤ c.toNat ∧ c.toNat ≤ 122 := by
  simp [Char.isLower, Char.toNat]
  exact Iff.rfl

theorem isUpper_iff_toNat (c : Char) : c.isUpper = true ↔ 65 ≤ c.toNat ∧ c.toNat ≤ 90 := by
  simp [Char.isUpper, Char.toNat]
  exact Iff.rfl

theorem isLower_toUpper (c : Char) : (Char.toUpper c).isLower = false := by
  unfold Char.toUpper
  by_cases h : 97 ≤ c.toNat ∧ c.toNat ≤ 122
  · rw [if_pos h]
    have hv : (c.toNat - 32).isValidChar := by
      unfold Nat.isValidChar
      left
      omega
    have ht := toNat_ofNat_valid (c.toNat - 32) hv
    rw [Bool.eq_false_iff]
    intro hl
    rw [isLower_iff_toNat] at hl
    omega
  · rw [if_neg h]
    rw [Bool.eq_false_iff]
    intro hl
    rw [isLower_iff_toNat] at hl
    exact h hl

theorem isUpper_toLower (c : Char) : (Char.toLower c).isUpper = false := by
  unfold Char.toLower
  by_cases h : 65 ≤ c.toNat ∧ c.toNat ≤ 90
  · rw [if_pos h]
    have hv : (c.toNat + 32).isValidChar := by
      unfold Nat.isValidChar
      left
      omega
    have ht := toNat_ofNat_valid (c.toNat + 32) hv
    rw [Bool.eq_false_iff]
    intro hl
    rw [isUpper_iff_toNat] at hl
    omega
  · rw [if_neg h]
    rw [Bool.eq_false_iff]
    intro hl
    rw [isUpper_iff_toNat] at hl
    exact h hl

/-! ### Lookup lemmas -/

theorem lookupVariant_eq_some {fs : FeatureSet} {tn key v : Str} {vs : List Str}
    (h : lookupVariant fs tn key vs = some v) :
    v ∈ vs ∧ compKey fs tn v = key := by
  induction vs with
  | nil => simp [lookupVariant] at h
  | cons w rest ih =>
      rw [lookupVariant] at h
      by_cases hw : compKey fs tn w = key
      · rw [if_pos hw] at h
        have hwv : w = v := by injection h
        subst hwv
        exact ⟨List.mem_cons_self w rest, hw⟩
      · rw [if_neg hw] at h
        obtain ⟨hmem, hkey⟩ := ih h
        exact ⟨List.mem_cons_of_mem w hmem, hkey⟩

theorem lookupVariant_eq_some_of_unique {fs : FeatureSet} {tn key v : Str} {vs : List Str}
    (hv : v ∈ vs) (hkey : compKey fs tn v = key)
    (huniq : ∀ w ∈ vs, compKey fs tn w = key → w = v) :
    lookupVariant fs tn key vs = some v := by
  induction vs with
  | nil => cases hv
  | cons w rest ih =>
      rw [lookupVariant]
      by_cases hw : compKey fs tn w = key
      · rw [if_pos hw]
        rw [huniq w (List.mem_cons_self w rest) hw]
      · rw [if_neg hw]
        rcases List.mem_cons.mp hv with h | h
        · subst h
          exact absurd hkey hw
        · exact ih h (fun x hx => huniq x (List.mem_cons_of_mem w hx))

theorem lookupVariant_eq_none {fs : FeatureSet} {tn key : Str} {vs : List Str}
    (h : ∀ w ∈ vs, compKey fs tn w ≠ key) :
    lookupVariant fs tn key vs = none := by
  induction vs with
  | nil => rfl
  | cons w rest ih =>
      rw [lookupVariant]
      rw [if_neg (h w (List.mem_cons_self w rest))]
      exact ih (fun x hx => h x (List.mem_cons_of_mem w hx))

theorem fromStr_eq_ok {schema : EnumSchema} {fs : FeatureSet} {s v : Str} :
    fromStr schema fs s = Except.ok v ↔
      lookupVariant fs schema.typeName (normInput fs s) schema.variants = some v := by
  unfold fromStr
  cases hl : lookupVariant fs schema.typeName (normInput fs s) schema.variants with
  | none => simp
  | some w => simp

theorem fromStr_eq_error {schema : EnumSchema} {fs : FeatureSet} {s : Str}
    {e : UnknownVariantError} :
    fromStr schema fs s = Except.error e ↔
      lookupVariant fs schema.typeName (normInput fs s) schema.variants = none ∧
        e = UnknownVariantError.mk s := by
  unfold fromStr
  cases hl : lookupVariant fs schema.typeName (normInput fs s) schema.variants with
  | none =>
      constructor
      · intro h
        injection h with h
        exact ⟨rfl, h.symm⟩
      · intro h
        rw [h.2]
  | some w => simp

/-! ### Resolution under the concrete configurations -/

theorem resolve_default (tn v : Str) : resolve tn v defaultFeatures = v := rfl

theorem compKey_default (tn v : Str) : compKey defaultFeatures tn v = v := rfl

theorem resolve_scoped (tn v : Str) :
    resolve tn v scopedFeatures = tn ++ ':' :: ':' :: v := rfl

theorem compKey_scoped (tn v : Str) :
    compKey scopedFeatures tn v = tn ++ ':' :: ':' :: v := rfl

/-- Concrete schema used by the witnesses. -/
def demoSchema : EnumSchema :=
  EnumSchema.mk "Enum".data ["Foo".data, "Bar".data, "Baz".data]

/-- C1: with no configuration, parsing the display string of any variant
returns that variant, and parsing a string that is not the exact name of any
variant fails with an error value carrying that input string. -/
theorem C1_round_trip_default (schema : EnumSchema) (v s : Str)
    (hv : v ∈ schema.variants) (hs : s ∉ schema.variants) :
    fromStr schema defaultFeatures (display schema defaultFeatures v) = Except.ok v ∧
    fromStr schema defaultFeatures s = Except.error (UnknownVariantError.mk s) := by
  constructor
  · rw [fromStr_eq_ok]
    exact lookupVariant_eq_some_of_unique hv rfl
      (fun w _ hkey => by rwa [compKey_default] at hkey)
  · rw [fromStr_eq_error]
    refine ⟨?_, rfl⟩
    apply lookupVariant_eq_none
    intro w hw
    rw [compKey_default]
    intro hws
    have hws2 : w = s := hws
    exact hs (hws2 ▸ hw)

theorem C1_round_trip_default_witness :
    ("Foo".data ∈ demoSchema.variants ∧ "unknown".data ∉ demoSchema.variants) ∧
    fromStr demoSchema defaultFeatures (display demoSchema defaultFeatures "Foo".data)
        = Except.ok "Foo".data ∧
    fromStr demoSchema defaultFeatures "unknown".data
        = Except.error (UnknownVariantError.mk "unknown".data) :=
  ⟨⟨by decide, by decide⟩,
    C1_round_trip_default demoSchema "Foo".data "unknown".data (by decide) (by decide)⟩

/-- C5: with `scoped`, the display string of a variant `v` is exactly the type
name and the variant joined by the literal two-colon separator, that exact
scoped spelling parses back to `v`, and the unscoped spelling (a colon-free
identifier) fails to parse. -/
theorem C5_scoped (schema : EnumSchema) (v : Str)
    (hv : v ∈ schema.variants) (hcolon : ':' ∉ v) :
    display schema scopedFeatures v = schema.typeName ++ ':' :: ':' :: v ∧
    fromStr schema scopedFeatures (display schema scopedFeatures v) = Except.ok v ∧
    fromStr schema scopedFeatures v = Except.error (UnknownVariantError.mk v) := by
  refine ⟨rfl, ?_, ?_⟩
  · rw [fromStr_eq_ok]
    apply lookupVariant_eq_some_of_unique hv rfl
    intro w _ hkey
    rw [compKey_scoped] at hkey
    have h2 : ':' :: ':' :: w = ':' :: ':' :: v := List.append_cancel_left hkey
    simpa using h2
  · rw [fromStr_eq_error]
    refine ⟨?_, rfl⟩
    apply lookupVariant_eq_none
    intro w _
    rw [compKey_scoped]
    intro hws
    apply hcolon
    rw [show normInput scopedFeatures v = v from rfl] at hws
    rw [← hws]
    exact List.mem_append_right _ (List.mem_cons_self _ _)

theorem C5_scoped_witness :
    ("Foo".data ∈ demoSchema.variants ∧ ':' ∉ "Foo".data) ∧
    display demoSchema scopedFeatures "Foo".data
        = demoSchema.typeName ++ ':' :: ':' :: "Foo".data ∧
    fromStr demoSchema scopedFeatures
        (display demoSchema scopedFeatures "Foo".data) = Except.ok "Foo".data ∧
    fromStr demoSchema scopedFeatures "Foo".data
        = Except.error (UnknownVariantError.mk "Foo".data) :=
  ⟨⟨by decide, by decide⟩, C5_scoped demoSchema "Foo".data (by decide) (by decide)⟩

/-- C9: the reverse-lookup error carries the original unmodified input string;
two such error values are equal iff their carried strings are equal; and the
display message has exactly the documented form. -/
theorem C9_unknown_variant_error :
    (∀ (schema : EnumSchema) (fs : FeatureSet) (s : Str) (e : UnknownVariantError),
        fromStr schema fs s = Except.error e → e.variant = s) ∧
    (∀ e1 e2 : UnknownVariantError, e1 = e2 ↔ e1.variant = e2.variant) ∧
    UnknownVariantError.displayMessage "Enum".data (UnknownVariantError.mk "unknown".data)
      = "Could not parse \x60unknown\x27 as type Enum: unknown variant".data := by
  refine ⟨?_, ?_, ?_⟩
  · intro schema fs s e h
    rw [fromStr_eq_error] at h
    rw [h.2]
  · intro e1 e2
    cases e1
    cases e2
    simp
  · decide

theorem C9_unknown_variant_error_witness :
    fromStr demoSchema defaultFeatures "unknown".data
        = Except.error (UnknownVariantError.mk "unknown".data) ∧
    (UnknownVariantError.mk "unknown".data).variant = "unknown".data :=
  ⟨rfl,
    C9_unknown_variant_error.1 demoSchema defaultFeatures "unknown".data
      (UnknownVariantError.mk "unknown".data) rfl⟩

/-- Shorthand: a `#[sternum(...)]` attribute with the given argument tokens. -/
def sternumAttr (toks : List Tok) : Attribute :=
  Attribute.mk "sternum".data (AttrArgs.paren toks)

/-- Shorthand: the tokens of one `transform = <value>` item. -/
def transformEq (value : Str) : List Tok :=
  [Tok.ident "transform".data, Tok.eqTok, Tok.ident value]

/-- C6: merging fails with a conflict diagnostic when `transform = uppercase`
and `transform = lowercase` both appear on the same declaration, and succeeds
idempotently when the same transform value, or `scoped`, or `case_insensitive`
is repeated. -/
theorem C6_merge_conflicts :
    parseFeatures [sternumAttr (transformEq "uppercase".data),
        sternumAttr (transformEq "lowercase".data)]
      = Except.error [Diag.repeatedTransform] ∧
    parseFeatures [sternumAttr (transformEq "lowercase".data),
        sternumAttr (transformEq "uppercase".data)]
      = Except.error [Diag.repeatedTransform] ∧
    parseFeatures [sternumAttr (transformEq "uppercase".data),
        sternumAttr (transformEq "uppercase".data)]
      = Except.ok (transformFeatures TransformKind.uppercase) ∧
    parseFeatures [sternumAttr (transformEq "lowercase".data),
        sternumAttr (transformEq "lowercase".data)]
      = Except.ok (transformFeatures TransformKind.lowercase) ∧
    parseFeatures [sternumAttr [Tok.ident "scoped".data],
        sternumAttr [Tok.ident "scoped".data]]
      = Except.ok scopedFeatures ∧
    parseFeatures [sternumAttr [Tok.ident "case_insensitive".data],
        sternumAttr [Tok.ident "case_insensitive".data]]
      = Except.ok ciFeatures :=
  ⟨rfl, rfl, rfl, rfl, rfl, rfl⟩

/-- C7 counterexample: a single fragment holding two malformed items
(`#[sternum(foo, bar)]`) yields only one diagnostic, the one citing `foo`;
the second malformed item is not reported, contradicting the claim that all
malformed items in a declaration are reported together. -/
theorem C7_counterexample :
    parseFeatures [sternumAttr [Tok.ident "foo".data, Tok.comma, Tok.ident "bar".data]]
      = Except.error [Diag.unknownArgument "foo".data] :=
  rfl

/-- C7 (amended): every malformed configuration item yields a parse diagnostic
citing the offending token (unknown bare identifier, `key=value` with unknown
key, non-identifier token, empty fragment), and diagnostics accumulate across
attribute fragments and across items whose `transform` value is invalid; but
within one fragment a token-level parse error aborts the rest of that
fragment, so only its first malformed item is reported. -/
theorem C7_amended_parse_diagnostics :
    parseFeatures [sternumAttr [Tok.ident "foo".data]]
      = Except.error [Diag.unknownArgument "foo".data] ∧
    parseFeatures [sternumAttr [Tok.ident "foo".data, Tok.eqTok, Tok.ident "bar".data]]
      = Except.error [Diag.unknownArgument "foo".data] ∧
    parseFeatures [sternumAttr [Tok.litTok]]
      = Except.error [Diag.expectedIdent] ∧
    parseFeatures [sternumAttr []]
      = Except.error [Diag.endOfInput] ∧
    parseFeatures [sternumAttr [Tok.ident "foo".data], sternumAttr [Tok.ident "bar".data]]
      = Except.error [Diag.unknownArgument "foo".data, Diag.unknownArgument "bar".data] ∧
    parseFeatures [sternumAttr
        (transformEq "foo".data ++ Tok.comma :: transformEq "bar".data)]
      = Except.error [Diag.badTransformValue "foo".data, Diag.badTransformValue "bar".data] ∧
    parseFeatures [sternumAttr [Tok.ident "foo".data, Tok.comma, Tok.ident "bar".data]]
      = Except.error [Diag.unknownArgument "foo".data] :=
  ⟨rfl, rfl, rfl, rfl, rfl, rfl, rfl⟩

/-- The diagnostics for data-carrying variants, one per offender, in order. -/
theorem dataDiags_eq (variants : List RawVariant) :
    variants.filterMap
        (fun v => if v.isUnit then none else some (Diag.nonUnitVariant v.ident))
      = (variants.filter (fun v => !v.isUnit)).map
          (fun v => Diag.nonUnitVariant v.ident) := by
  induction variants with
  | nil => rfl
  | cons v rest ih =>
      cases hv : v.isUnit
      · simp [List.filterMap_cons, List.filter_cons, hv, ih]
      · simp [List.filterMap_cons, List.filter_cons, hv, ih]

/-- C8: structural errors (not an enum; zero variants; data-carrying variants)
are fatal, reported independently of whatever attributes are present (so
before any configuration parsing), with one diagnostic per offending
data-carrying variant. -/
theorem C8_structural_short_circuit (attrs : List Attribute) (tyIdent : Str)
    (variants : List RawVariant) :
    deriveImpl (DeriveInput.mk tyIdent attrs InputData.notEnum)
      = Except.error [Diag.notAnEnum] ∧
    deriveImpl (DeriveInput.mk tyIdent attrs (InputData.enumOf []))
      = Except.error [Diag.noVariants] ∧
    ((∃ v ∈ variants, v.isUnit = false) →
      deriveImpl (DeriveInput.mk tyIdent attrs (InputData.enumOf variants))
        = Except.error ((variants.filter (fun v => !v.isUnit)).map
            (fun v => Diag.nonUnitVariant v.ident))) := by
  refine ⟨rfl, rfl, ?_⟩
  rintro ⟨v, hv, hunit⟩
  have hlen : ¬ variants.length = 0 := by
    cases variants
    · cases hv
    · simp
  have hne : ¬ variants.filterMap
      (fun v => if v.isUnit then none else some (Diag.nonUnitVariant v.ident)) = [] := by
    intro hempty
    rw [List.filterMap_eq_nil_iff] at hempty
    have := hempty v hv
    rw [hunit] at this
    cases this
  show deriveImpl _ = _
  unfold deriveImpl
  dsimp only
  rw [if_neg hlen, if_neg hne, dataDiags_eq]

theorem C8_structural_short_circuit_witness :
    deriveImpl (DeriveInput.mk "A".data [sternumAttr [Tok.ident "junk".data]]
        (InputData.enumOf [RawVariant.mk "D1".data true, RawVariant.mk "D3".data false]))
      = Except.error [Diag.nonUnitVariant "D3".data] :=
  (C8_structural_short_circuit [sternumAttr [Tok.ident "junk".data]] "A".data
      [RawVariant.mk "D1".data true, RawVariant.mk "D3".data false]).2.2
    ⟨RawVariant.mk "D3".data false, by decide, rfl⟩

/-- C10: feature parsing inspects only attributes whose path is `sternum`;
any other attribute is skipped entirely: the outcome is the same as if it
were absent, so it contributes nothing and produces no diagnostic. -/
theorem C10_skip_foreign_attrs (a : Attribute) (attrs1 attrs2 : List Attribute)
    (h : a.path ≠ "sternum".data) :
    parseFeatures (attrs1 ++ a :: attrs2) = parseFeatures (attrs1 ++ attrs2) := by
  have hfilter : (attrs1 ++ a :: attrs2).filter (fun x => decide (x.path = "sternum".data))
      = (attrs1 ++ attrs2).filter (fun x => decide (x.path = "sternum".data)) := by
    rw [List.filter_append, List.filter_append, List.filter_cons]
    simp [h]
  unfold parseFeatures collectItems
  rw [hfilter]

theorem C10_skip_foreign_attrs_witness :
    (Attribute.mk "doc".data AttrArgs.nameValue).path ≠ "sternum".data ∧
    parseFeatures [sternumAttr [Tok.ident "scoped".data],
        Attribute.mk "doc".data AttrArgs.nameValue,
        sternumAttr [Tok.ident "case_insensitive".data]]
      = parseFeatures [sternumAttr [Tok.ident "scoped".data],
          sternumAttr [Tok.ident "case_insensitive".data]] :=
  ⟨by decide,
    C10_skip_foreign_attrs (Attribute.mk "doc".data AttrArgs.nameValue)
      [sternumAttr [Tok.ident "scoped".data]]
      [sternumAttr [Tok.ident "case_insensitive".data]] (by decide)⟩

theorem not_isLower_of_mem_asciiUpper {c : Char} {s : Str} (h : c ∈ asciiUpper s) :
    c.isLower = false := by
  rw [asciiUpper] at h
  obtain ⟨c0, _, hc0⟩ := List.mem_map.mp h
  rw [← hc0]
  exact isLower_toUpper c0

theorem not_isUpper_of_mem_asciiLower {c : Char} {s : Str} (h : c ∈ asciiLower s) :
    c.isUpper = false := by
  rw [asciiLower] at h
  obtain ⟨c0, _, hc0⟩ := List.mem_map.mp h
  rw [← hc0]
  exact isUpper_toLower c0

/-- C2: with `transform = uppercase` the resolved display string is the whole
post-scoping string uppercased under ASCII case rules and only that all-caps
spelling parses; symmetrically for `transform = lowercase`; and input
containing a letter of the folded-away case always fails to parse. -/
theorem C2_transform (schema : EnumSchema) (v : Str) (hv : v ∈ schema.variants)
    (hU : ∀ w ∈ schema.variants, asciiUpper w = asciiUpper v → w = v)
    (hL : ∀ w ∈ schema.variants, asciiLower w = asciiLower v → w = v) :
    (∀ (sc : Bool) (tn w : Str),
        resolve tn w (FeatureSet.mk sc false (some TransformKind.uppercase))
            = asciiUpper (scopedRepr tn w sc) ∧
        resolve tn w (FeatureSet.mk sc false (some TransformKind.lowercase))
            = asciiLower (scopedRepr tn w sc)) ∧
    fromStr schema (transformFeatures TransformKind.uppercase)
        (display schema (transformFeatures TransformKind.uppercase) v) = Except.ok v ∧
    fromStr schema (transformFeatures TransformKind.lowercase)
        (display schema (transformFeatures TransformKind.lowercase) v) = Except.ok v ∧
    (∀ s w, fromStr schema (transformFeatures TransformKind.uppercase) s = Except.ok w →
        s = asciiUpper w) ∧
    (∀ s w, fromStr schema (transformFeatures TransformKind.lowercase) s = Except.ok w →
        s = asciiLower w) ∧
    (∀ s, (∃ c ∈ s, c.isLower = true) →
        fromStr schema (transformFeatures TransformKind.uppercase) s
          = Except.error (UnknownVariantError.mk s)) ∧
    (∀ s, (∃ c ∈ s, c.isUpper = true) →
        fromStr schema (transformFeatures TransformKind.lowercase) s
          = Except.error (UnknownVariantError.mk s)) := by
  refine ⟨fun sc tn w => ⟨rfl, rfl⟩, ?_, ?_, ?_, ?_, ?_, ?_⟩
  · rw [fromStr_eq_ok]
    apply lookupVariant_eq_some_of_unique hv rfl
    intro w hw hkey
    exact hU w hw hkey
  · rw [fromStr_eq_ok]
    apply lookupVariant_eq_some_of_unique hv rfl
    intro w hw hkey
    exact hL w hw hkey
  · intro s w hok
    rw [fromStr_eq_ok] at hok
    have h2 := (lookupVariant_eq_some hok).2
    exact (id (Eq.symm h2) : s = asciiUpper w)
  · intro s w hok
    rw [fromStr_eq_ok] at hok
    have h2 := (lookupVariant_eq_some hok).2
    exact (id (Eq.symm h2) : s = asciiLower w)
  · rintro s ⟨c, hcs, hcl⟩
    rw [fromStr_eq_error]
    refine ⟨?_, rfl⟩
    apply lookupVariant_eq_none
    intro w _ heq
    have heq2 : asciiUpper w = s := heq
    have hmem : c ∈ asciiUpper w := heq2 ▸ hcs
    rw [not_isLower_of_mem_asciiUpper hmem] at hcl
    cases hcl
  · rintro s ⟨c, hcs, hcu⟩
    rw [fromStr_eq_error]
    refine ⟨?_, rfl⟩
    apply lookupVariant_eq_none
    intro w _ heq
    have heq2 : asciiLower w = s := heq
    have hmem : c ∈ asciiLower w := heq2 ▸ hcs
    rw [not_isUpper_of_mem_asciiLower hmem] at hcu
    cases hcu

theorem C2_transform_witness :
    fromStr demoSchema (transformFeatures TransformKind.uppercase)
        (display demoSchema (transformFeatures TransformKind.uppercase) "Foo".data)
      = Except.ok "Foo".data ∧
    fromStr demoSchema (transformFeatures TransformKind.uppercase) "Foo".data
      = Except.error (UnknownVariantError.mk "Foo".data) :=
  ⟨(C2_transform demoSchema "Foo".data (by decide) (by decide) (by decide)).2.1,
    (C2_transform demoSchema "Foo".data (by decide) (by decide)
        (by decide)).2.2.2.2.2.1 "Foo".data ⟨'o', by decide, by decide⟩⟩

/-- C3: with `case_insensitive`, the display string of every variant equals the
default-configuration display string, and the parse function accepts exactly
the strings whose ASCII lowercase folding matches a variant's folded resolved
name, always yielding that same variant. -/
theorem C3_case_insensitive (schema : EnumSchema) (v : Str) (hv : v ∈ schema.variants)
    (huniq : ∀ w ∈ schema.variants, asciiLower w = asciiLower v → w = v) :
    (∀ w, display schema ciFeatures w = display schema defaultFeatures w) ∧
    (∀ s, asciiLower s = asciiLower v → fromStr schema ciFeatures s = Except.ok v) ∧
    (∀ s w, fromStr schema ciFeatures s = Except.ok w → asciiLower s = asciiLower w) := by
  refine ⟨fun w => rfl, ?_, ?_⟩
  · intro s hs
    rw [fromStr_eq_ok]
    apply lookupVariant_eq_some_of_unique hv
    · exact (id (Eq.symm hs) : compKey ciFeatures schema.typeName v = normInput ciFeatures s)
    · intro w hw hkey
      have hkey2 : asciiLower w = asciiLower s := hkey
      exact huniq w hw (hkey2.trans hs)
  · intro s w hok
    rw [fromStr_eq_ok] at hok
    have h2 := (lookupVariant_eq_some hok).2
    exact (id (Eq.symm h2) : asciiLower s = asciiLower w)

theorem C3_case_insensitive_witness :
    display demoSchema ciFeatures "Foo".data = display demoSchema defaultFeatures "Foo".data ∧
    fromStr demoSchema ciFeatures "FOO".data = Except.ok "Foo".data ∧
    fromStr demoSchema ciFeatures "Foo".data = Except.ok "Foo".data ∧
    fromStr demoSchema ciFeatures "foo".data = Except.ok "Foo".data :=
  ⟨(C3_case_insensitive demoSchema "Foo".data (by decide) (by decide)).1 "Foo".data,
    (C3_case_insensitive demoSchema "Foo".data (by decide) (by decide)).2.1
      "FOO".data (by decide),
    (C3_case_insensitive demoSchema "Foo".data (by decide) (by decide)).2.1
      "Foo".data (by decide),
    (C3_case_insensitive demoSchema "Foo".data (by decide) (by decide)).2.1
      "foo".data (by decide)⟩

/-! ### Collision validation and table synthesis

Modelled from the spec: the collision validator and the table synthesizer are
not in the snapshot (only the compile-fail fixture
`src/sternum/test/compile/case-insensitive-variants.rs` exercises them). -/

/-- Modelled from the spec: the collision check activates only when
`case_insensitive` is true or a transform is set. -/
def checkActive (fs : FeatureSet) : Bool := fs.caseInsensitive || fs.transform.isSome

/-- Modelled from the spec: scan variants in declaration order keeping a map
from comparison key to the first variant that produced it; a variant whose key
is already present yields a diagnostic naming it and the prior variant, and
scanning continues. -/
def collisionScan (fs : FeatureSet) (tn : Str) :
    List Str → List (Str × Str) → List Diag
  | [], _ => []
  | v :: rest, seen =>
      match seen.find? (fun p => decide (p.1 = compKey fs tn v)) with
      | some p => Diag.collision v p.2 :: collisionScan fs tn rest seen
      | none => collisionScan fs tn rest (seen ++ [(compKey fs tn v, v)])

/-- Modelled from the spec: run the scan when the check is active, else no
dynamic check is needed (identifiers are unique by the host type system). -/
def validateCollisions (fs : FeatureSet) (schema : EnumSchema) : List Diag :=
  if checkActive fs then collisionScan fs schema.typeName schema.variants [] else []

/-- Modelled from the spec: the forward (variant to display string) and
reverse (comparison key to variant) tables. -/
structure MappingTable where
  forward : List (Str × Str)
  reverse : List (Str × Str)
deriving DecidableEq

/-- Insert into the reverse table, keeping the first binding of a key (a
duplicate key would silently drop the new variant). -/
def insertRev (m : List (Str × Str)) (k v : Str) : List (Str × Str) :=
  if (m.find? (fun p => decide (p.1 = k))).isSome then m else m ++ [(k, v)]

/-- Modelled from the spec: build the reverse table by inserting each
variant's comparison key in declaration order. -/
def buildReverse (fs : FeatureSet) (tn : Str) (vs : List Str) : List (Str × Str) :=
  vs.foldl (fun m v => insertRev m (compKey fs tn v) v) []

/-- Modelled from the spec: the table synthesizer, gated by the collision
validator: fail with the accumulated collision diagnostics when there are
any, else produce the forward and reverse tables. -/
def buildTable (fs : FeatureSet) (schema : EnumSchema) :
    Except (List Diag) MappingTable :=
  match validateCollisions fs schema with
  | [] => Except.ok (MappingTable.mk
      (schema.variants.map (fun v => (v, resolve schema.typeName v fs)))
      (buildReverse fs schema.typeName schema.variants))
  | d :: ds => Except.error (d :: ds)

theorem find?_append_eq_none {α : Type} (p : α → Bool) (l1 l2 : List α) :
    (l1 ++ l2).find? p = none ↔ l1.find? p = none ∧ l2.find? p = none := by
  induction l1 with
  | nil => simp
  | cons a l ih =>
      by_cases ha : p a
      · simp [List.find?_cons, ha]
      · simp [List.find?_cons, ha, ih]

/-- Soundness of the collision scan: every emitted diagnostic names a prior
variant from the scanned universe bearing the same comparison key as the
current variant. -/
theorem collisionScan_sound (fs : FeatureSet) (tn : Str) (V : List Str) :
    ∀ (vs : List Str) (seen : List (Str × Str)),
      (∀ x ∈ vs, x ∈ V) →
      (∀ p ∈ seen, compKey fs tn p.2 = p.1 ∧ p.2 ∈ V) →
      ∀ cur prior, Diag.collision cur prior ∈ collisionScan fs tn vs seen →
        prior ∈ V ∧ compKey fs tn prior = compKey fs tn cur := by
  intro vs
  induction vs with
  | nil =>
      intro seen _ _ cur prior h
      simp [collisionScan] at h
  | cons v rest ih =>
      intro seen hvs hseen cur prior hmem
      cases hfind : seen.find? (fun p => decide (p.1 = compKey fs tn v)) with
      | some p =>
          simp only [collisionScan, hfind] at hmem
          rcases List.mem_cons.mp hmem with hhead | htail
          · injection hhead with h1 h2
            subst h1
            subst h2
            have hp := hseen p (List.mem_of_find?_eq_some hfind)
            have hfp := List.find?_some hfind
            have hkey : p.1 = compKey fs tn cur := of_decide_eq_true hfp
            exact ⟨hp.2, hp.1.trans hkey⟩
          · exact ih seen (fun x hx => hvs x (List.mem_cons_of_mem v hx)) hseen cur prior htail
      | none =>
          simp only [collisionScan, hfind] at hmem
          refine ih (seen ++ [(compKey fs tn v, v)])
            (fun x hx => hvs x (List.mem_cons_of_mem v hx)) ?_ cur prior hmem
          intro p hp
          rcases List.mem_append.mp hp with h1 | h2
          · exact hseen p h1
          · have hps : p = (compKey fs tn v, v) := List.mem_singleton.mp h2
            subst hps
            exact ⟨rfl, hvs v (List.mem_cons_self v rest)⟩

/-- Completeness of the collision scan: a variant whose comparison key matches
an entry of `seen` or an earlier variant gets a diagnostic naming it. -/
theorem collisionScan_complete (fs : FeatureSet) (tn : Str) :
    ∀ (vs : List Str) (seen : List (Str × Str)) (j : Nat) (hj : j < vs.length),
      ((∃ p ∈ seen, p.1 = compKey fs tn (vs.get ⟨j, hj⟩)) ∨
        (∃ i, ∃ hi : i < j, compKey fs tn (vs.get ⟨i, Nat.lt_trans hi hj⟩)
            = compKey fs tn (vs.get ⟨j, hj⟩))) →
      ∃ prior, Diag.collision (vs.get ⟨j, hj⟩) prior ∈ collisionScan fs tn vs seen := by
  intro vs
  induction vs with
  | nil =>
      intro seen j hj
      exact absurd hj (Nat.not_lt_zero j)
  | cons v rest ih =>
      intro seen j hj hyp
      cases j with
      | zero =>
          rcases hyp with ⟨p, hp, hpk⟩ | ⟨i, hi, _⟩
          · have hsome : (seen.find? (fun q => decide (q.1 = compKey fs tn v))).isSome := by
              rw [List.find?_isSome]
              exact ⟨p, hp, decide_eq_true hpk⟩
            obtain ⟨q, hq⟩ := Option.isSome_iff_exists.mp hsome
            refine ⟨q.2, ?_⟩
            simp only [collisionScan, hq]
            exact List.mem_cons_self _ _
          · exact absurd hi (Nat.not_lt_zero i)
      | succ j2 =>
          have hj2 : j2 < rest.length := Nat.lt_of_succ_lt_succ hj
          cases hfind : seen.find? (fun q => decide (q.1 = compKey fs tn v)) with
          | some q =>
              have hyp2 : (∃ p ∈ seen, p.1 = compKey fs tn (rest.get ⟨j2, hj2⟩)) ∨
                  (∃ i, ∃ hi : i < j2, compKey fs tn (rest.get ⟨i, Nat.lt_trans hi hj2⟩)
                      = compKey fs tn (rest.get ⟨j2, hj2⟩)) := by
                rcases hyp with ⟨p, hp, hpk⟩ | ⟨i, hi, hik⟩
                · exact Or.inl ⟨p, hp, hpk⟩
                · cases i with
                  | zero =>
                      have hfq := List.find?_some hfind
                      have hq1 : q.1 = compKey fs tn v := of_decide_eq_true hfq
                      exact Or.inl ⟨q, List.mem_of_find?_eq_some hfind, hq1.trans hik⟩
                  | succ i2 =>
                      exact Or.inr ⟨i2, Nat.lt_of_succ_lt_succ hi, hik⟩
              obtain ⟨prior, hprior⟩ := ih seen j2 hj2 hyp2
              refine ⟨prior, ?_⟩
              simp only [collisionScan, hfind]
              exact List.mem_cons_of_mem _ hprior
          | none =>
              have hyp2 : (∃ p ∈ seen ++ [(compKey fs tn v, v)],
                    p.1 = compKey fs tn (rest.get ⟨j2, hj2⟩)) ∨
                  (∃ i, ∃ hi : i < j2, compKey fs tn (rest.get ⟨i, Nat.lt_trans hi hj2⟩)
                      = compKey fs tn (rest.get ⟨j2, hj2⟩)) := by
                rcases hyp with ⟨p, hp, hpk⟩ | ⟨i, hi, hik⟩
                · exact Or.inl ⟨p, List.mem_append_left _ hp, hpk⟩
                · cases i with
                  | zero =>
                      exact Or.inl ⟨(compKey fs tn v, v),
                        List.mem_append_right _ (List.mem_singleton_self _), hik⟩
                  | succ i2 =>
                      exact Or.inr ⟨i2, Nat.lt_of_succ_lt_succ hi, hik⟩
              obtain ⟨prior, hprior⟩ := ih (seen ++ [(compKey fs tn v, v)]) j2 hj2 hyp2
              refine ⟨prior, ?_⟩
              simp only [collisionScan, hfind]
              exact hprior

/-- An empty scan output means all comparison keys are pairwise distinct. -/
theorem pairwise_of_scan_nil (fs : FeatureSet) (tn : Str) (vs : List Str)
    (h : collisionScan fs tn vs [] = []) :
    List.Pairwise (fun a b => compKey fs tn a ≠ compKey fs tn b) vs := by
  rw [List.pairwise_iff_get]
  intro i j hij heq
  obtain ⟨prior, hmem⟩ := collisionScan_complete fs tn vs [] j.val j.isLt
    (Or.inr ⟨i.val, hij, heq⟩)
  rw [h] at hmem
  cases hmem

/-- Folding the reverse-table insertions over variants with pairwise distinct
keys, none already present, adds exactly one entry per variant. -/
theorem buildReverse_length_aux (fs : FeatureSet) (tn : Str) :
    ∀ (vs : List Str) (m : List (Str × Str)),
      List.Pairwise (fun a b => compKey fs tn a ≠ compKey fs tn b) vs →
      (∀ v ∈ vs, m.find? (fun p => decide (p.1 = compKey fs tn v)) = none) →
      (vs.foldl (fun acc v => insertRev acc (compKey fs tn v) v) m).length
        = m.length + vs.length := by
  intro vs
  induction vs with
  | nil =>
      intro m _ _
      simp
  | cons v rest ih =>
      intro m hpw hnone
      rw [List.foldl_cons]
      have hv : m.find? (fun p => decide (p.1 = compKey fs tn v)) = none :=
        hnone v (List.mem_cons_self v rest)
      have hins : insertRev m (compKey fs tn v) v = m ++ [(compKey fs tn v, v)] := by
        rw [insertRev, hv]
        rfl
      rw [hins]
      have hpw2 := List.pairwise_cons.mp hpw
      have hnone2 : ∀ w ∈ rest, (m ++ [(compKey fs tn v, v)]).find?
          (fun p => decide (p.1 = compKey fs tn w)) = none := by
        intro w hw
        rw [find?_append_eq_none]
        refine ⟨hnone w (List.mem_cons_of_mem v hw), ?_⟩
        have hne : compKey fs tn v ≠ compKey fs tn w := hpw2.1 w hw
        simp [List.find?, hne]
      rw [ih (m ++ [(compKey fs tn v, v)]) hpw2.2 hnone2]
      rw [List.length_append]
      simp
      omega

/-- C4: under an active comparison-key normalization (`case_insensitive` or a
transform), every pair of variants with equal comparison keys makes table
construction fail, with a diagnostic naming the later variant of the pair and
a prior variant bearing the same key; and whenever construction succeeds the
reverse table holds one entry per variant (no variant is silently dropped). -/
theorem C4_collision_detection (fs : FeatureSet) (schema : EnumSchema)
    (hactive : checkActive fs = true) :
    (∀ (i j : Nat) (hij : i < j) (hj : j < schema.variants.length),
        compKey fs schema.typeName (schema.variants.get ⟨i, Nat.lt_trans hij hj⟩)
            = compKey fs schema.typeName (schema.variants.get ⟨j, hj⟩) →
        ∃ ds, buildTable fs schema = Except.error ds ∧
          ∃ prior, Diag.collision (schema.variants.get ⟨j, hj⟩) prior ∈ ds ∧
            prior ∈ schema.variants ∧
            compKey fs schema.typeName prior
              = compKey fs schema.typeName (schema.variants.get ⟨j, hj⟩)) ∧
    (∀ t, buildTable fs schema = Except.ok t →
        t.reverse.length = schema.variants.length) := by
  have hval : validateCollisions fs schema
      = collisionScan fs schema.typeName schema.variants [] := by
    rw [validateCollisions, if_pos hactive]
  constructor
  · intro i j hij hj heq
    obtain ⟨prior, hmem⟩ := collisionScan_complete fs schema.typeName schema.variants []
      j hj (Or.inr ⟨i, hij, heq⟩)
    have hsound := collisionScan_sound fs schema.typeName schema.variants
      schema.variants [] (fun x hx => hx)
      (fun p hp => absurd hp (List.not_mem_nil p)) _ prior hmem
    refine ⟨validateCollisions fs schema, ?_, prior, ?_, hsound.1, hsound.2⟩
    · cases hscan : validateCollisions fs schema with
      | nil =>
          rw [hval] at hscan
          rw [hscan] at hmem
          cases hmem
      | cons d ds => simp only [buildTable, hscan]
    · rw [hval]
      exact hmem
  · intro t hok
    cases hscan : validateCollisions fs schema with
    | cons d ds =>
        simp only [buildTable, hscan] at hok
        cases hok
    | nil =>
        simp only [buildTable, hscan] at hok
        injection hok with hok
        have hpw := pairwise_of_scan_nil fs schema.typeName schema.variants
          (by rw [← hval]; exact hscan)
        have hlen := buildReverse_length_aux fs schema.typeName schema.variants []
          hpw (fun v _ => rfl)
        rw [← hok]
        simpa using hlen

/-- The colliding schema of the compile-fail fixture
`src/sternum/test/compile/case-insensitive-variants.rs`. -/
def collideSchema : EnumSchema :=
  EnumSchema.mk "B".data ["Variant".data, "VARIANT".data, "VarIaNT".data]

theorem C4_collision_detection_witness :
    checkActive ciFeatures = true ∧
    (∃ ds, buildTable ciFeatures collideSchema = Except.error ds ∧
      ∃ prior, Diag.collision (collideSchema.variants.get ⟨1, by decide⟩) prior ∈ ds ∧
        prior ∈ collideSchema.variants ∧
        compKey ciFeatures collideSchema.typeName prior
          = compKey ciFeatures collideSchema.typeName
              (collideSchema.variants.get ⟨1, by decide⟩)) :=
  ⟨rfl, (C4_collision_detection ciFeatures collideSchema rfl).1 0 1 (by decide)
    (by decide) (by decide)⟩

end Sternum
